import Mathlib

/-!
Verification development for the `mediaconv` command-line media converter.

The embedding models the dispatch/orchestration core of `src/mediaconv/cli.py`:
the format registry (`OUTPUT_EXTENSIONS`, `CONVERTERS`), the path resolver
(`auto_generate_output_path`, `get_safe_output_path`), the single-file
dispatcher (`convert_single_file`) and the batch orchestrator (`cli`).

Modelling conventions:
* A filesystem `Path` is modelled by `FsPath` (parent directory as an opaque
  string plus the final component `name`); the set of existing paths is a
  finite list `List FsPath`.
* `pathlib`'s `stem`/`suffix` (split of the final component at the last dot,
  provided that dot is neither the first nor the last character) are modelled
  character-exactly by `nameSplit`.
* Python's `str(counter)` decimal rendering is modelled by `counterChars`.
* External converter capabilities are opaque: the dispatcher is parametric in
  an oracle `ConverterRun` returning success or a failure message, and the
  model additionally records the list of capability invocations so that
  "no converter was invoked" is expressible.
* `click` exit semantics: normal return gives exit code 0, `click.Abort` and
  an uncaught exception give exit code 1.
-/

namespace Mediaconv

/-! ### Decimal rendering of counters (Python `str(counter)`) -/

/-- The ASCII digit character for `d` (`0 ↦ '0'`, …, `9 ↦ '9'`). -/
def digitCh (d : Nat) : Char := Char.ofNat (48 + d)

/-- Fuel-driven decimal rendering; `natReprAux (n+1) n` is the standard
decimal representation of `n`, most significant digit first. -/
def natReprAux : Nat → Nat → List Char
  | 0, _ => []
  | fuel + 1, n =>
    if n < 10 then [digitCh n]
    else natReprAux fuel (n / 10) ++ [digitCh (n % 10)]

/-- Decimal digits of `n`, as produced by Python's `str(n)`. -/
def counterChars (n : Nat) : List Char := natReprAux (n + 1) n

/-- Reads a decimal digit list back into a number (proof tool used to show
`counterChars` is injective). -/
def parseDigits (l : List Char) : Nat :=
  l.foldl (fun a c => a * 10 + (c.toNat - 48)) 0

/-- Digit characters decode back to their value. -/
def digitCh_toNat : ∀ d, d < 10 → (digitCh d).toNat = 48 + d := by decide

/-- Digit characters are never a dot. -/
def digitCh_ne_dot : ∀ d, d < 10 → digitCh d ≠ '.' := by decide

/-- `parseDigits` is a left inverse of decimal rendering. -/
def parseDigits_natReprAux : ∀ fuel n, n < fuel → parseDigits (natReprAux fuel n) = n := by
  intro fuel
  induction fuel with
  | zero => intro n h; omega
  | succ fuel ih =>
    intro n h
    by_cases h10 : n < 10
    · simp only [natReprAux, if_pos h10, parseDigits, List.foldl_cons, List.foldl_nil]
      rw [digitCh_toNat n h10]
      omega
    · have hdiv : n / 10 < fuel := by omega
      simp only [natReprAux, if_neg h10, parseDigits, List.foldl_append, List.foldl_cons,
        List.foldl_nil]
      have hpre := ih (n / 10) hdiv
      simp only [parseDigits] at hpre
      rw [hpre, digitCh_toNat (n % 10) (Nat.mod_lt _ (by omega))]
      omega

/-- Decimal rendering is injective. -/
def counterChars_inj : ∀ m n, counterChars m = counterChars n → m = n := by
  intro m n h
  have hm := parseDigits_natReprAux (m + 1) m (by omega)
  have hn := parseDigits_natReprAux (n + 1) n (by omega)
  simp only [counterChars] at h
  rw [h] at hm
  omega

/-- Decimal renderings contain no dot. -/
def natReprAux_no_dot : ∀ fuel n, '.' ∉ natReprAux fuel n := by
  intro fuel
  induction fuel with
  | zero => intro n; simp [natReprAux]
  | succ fuel ih =>
    intro n
    by_cases h10 : n < 10
    · simp only [natReprAux, if_pos h10, List.mem_singleton]
      exact fun h => digitCh_ne_dot n h10 h.symm
    · simp only [natReprAux, if_neg h10, List.mem_append, List.mem_singleton]
      rintro (h | h)
      · exact ih _ h
      · exact digitCh_ne_dot (n % 10) (Nat.mod_lt _ (by omega)) h.symm

/-- Decimal renderings contain no dot (packaged for `counterChars`). -/
def counterChars_no_dot (n : Nat) : '.' ∉ counterChars n := natReprAux_no_dot _ _

/-! ### `pathlib` name splitting (`stem` / `suffix`) -/

/-- Splits a REVERSED character list at its first dot: `splitDotRev r = some (a, b)`
means `r = a ++ '.' :: b` with no dot in `a`; `none` means `r` has no dot.
Applied to the reverse of a filename this finds the LAST dot, as
`str.rfind('.')` does in `pathlib`. -/
def splitDotRev : List Char → Option (List Char × List Char)
  | [] => none
  | c :: cs =>
    if c = '.' then some ([], cs)
    else
      match splitDotRev cs with
      | none => none
      | some (a, b) => some (c :: a, b)

/-- Soundness of `splitDotRev`. -/
def splitDotRev_eq_some :
    ∀ r a b, splitDotRev r = some (a, b) → r = a ++ '.' :: b ∧ '.' ∉ a := by
  intro r
  induction r with
  | nil => intro a b h; simp [splitDotRev] at h
  | cons c cs ih =>
    intro a b h
    by_cases hc : c = '.'
    · simp only [splitDotRev, if_pos hc] at h
      obtain ⟨rfl, rfl⟩ := Prod.mk.injEq .. ▸ Option.some.inj h
      subst hc
      exact ⟨rfl, List.not_mem_nil _⟩
    · simp only [splitDotRev, if_neg hc] at h
      match hrec : splitDotRev cs with
      | none => rw [hrec] at h; exact absurd h (by simp)
      | some (a0, b0) =>
        rw [hrec] at h
        obtain ⟨ha, hb⟩ : c :: a0 = a ∧ b0 = b := by
          constructor <;> [exact congrArg Prod.fst (Option.some.inj h);
            exact congrArg Prod.snd (Option.some.inj h)]
        obtain ⟨he, hm⟩ := ih a0 b0 hrec
        subst ha hb
        refine ⟨by rw [he]; rfl, ?_⟩
        intro hmem
        rcases List.mem_cons.mp hmem with h1 | h1
        · exact hc h1.symm
        · exact hm h1

/-- Completeness of `splitDotRev`: the first dot is found. -/
def splitDotRev_of_decomp :
    ∀ a b, '.' ∉ a → splitDotRev (a ++ '.' :: b) = some (a, b) := by
  intro a
  induction a with
  | nil => intro b _; simp [splitDotRev]
  | cons c cs ih =>
    intro b hnd
    have hc : c ≠ '.' := fun h => hnd (h ▸ List.mem_cons_self c cs)
    have hcs : '.' ∉ cs := fun h => hnd (List.mem_cons_of_mem c h)
    simp only [List.cons_append, splitDotRev, if_neg hc, List.append_eq]
    rw [ih b hcs]

/-- `none` answers mean the list is dot-free. -/
def splitDotRev_eq_none : ∀ r, splitDotRev r = none → '.' ∉ r := by
  intro r
  induction r with
  | nil => intro _; exact List.not_mem_nil _
  | cons c cs ih =>
    intro h
    by_cases hc : c = '.'
    · simp [splitDotRev, if_pos hc] at h
    · simp only [splitDotRev, if_neg hc] at h
      match hrec : splitDotRev cs with
      | some (a0, b0) => rw [hrec] at h; exact absurd h (by simp)
      | none =>
        intro hmem
        rcases List.mem_cons.mp hmem with h1 | h1
        · exact hc h1.symm
        · exact ih hrec h1

/-- `pathlib` split of a filename into `(stem, suffix)`: the name is split at
its last dot provided that dot is neither the first nor the last character of
the name; otherwise the suffix is empty. Mirrors `PurePath.stem` /
`PurePath.suffix` (`i = name.rfind('.')`, used when `0 < i < len(name) - 1`). -/
def nameSplit (l : List Char) : List Char × List Char :=
  match splitDotRev l.reverse with
  | none => (l, [])
  | some (rpost, rpre) =>
    if rpre = [] ∨ rpost = [] then (l, [])
    else (rpre.reverse, '.' :: rpost.reverse)

/-- `pathlib`-style stem of a filename. -/
def nameStem (s : String) : String := ⟨(nameSplit s.data).1⟩

/-- `pathlib`-style suffix (extension, with leading dot) of a filename. -/
def nameSuffix (s : String) : String := ⟨(nameSplit s.data).2⟩

/-- Python's `str.lower()`, character by character (ASCII case folding; the
registry keys are ASCII so non-ASCII characters never match either way). -/
def strLower (s : String) : String := ⟨s.data.map Char.toLower⟩

/-! ### Paths and the filesystem model -/

/-- A filesystem path: the parent directory (opaque, as `pathlib`'s
`Path.parent`) and the final component (`Path.name`). `parent / name`
(used by `get_safe_output_path` to build the renamed candidate) keeps the
same `parent` and replaces `name`. -/
structure FsPath where
  parent : String
  name : String
deriving DecidableEq, Repr

/-- `pathlib`'s `Path.with_suffix(ext)` (for a valid non-empty `ext` such as
`".png"`): strips the current suffix, if any, and appends `ext`; when the name
has no suffix, `ext` is appended to the whole name. -/
def withSuffix (p : FsPath) (ext : String) : FsPath :=
  if nameSuffix p.name = "" then ⟨p.parent, p.name ++ ext⟩
  else ⟨p.parent, nameStem p.name ++ ext⟩

/-! ### The format registry (`cli.py`) -/

/-- The converter capabilities imported by `cli.py` (external collaborators;
their pixel/audio work is out of scope and represented opaquely). -/
inductive Converter where
  | convert_webp_to_png
  | convert_avif_to_png
  | convert_svg_to_png
  | convert_mp3_to_wav
  | convert_mp4_to_wav
  | convert_m4a_to_wav
deriving DecidableEq, Repr

/-- Python `dict` lookup (`key in d` / `d[key]`) over an association list. -/
def dictLookup {α β : Type} [DecidableEq α] : List (α × β) → α → Option β
  | [], _ => none
  | (k, v) :: rest, key => if key = k then some v else dictLookup rest key

/-- `OUTPUT_EXTENSIONS`: input extension ↦ default output extension. -/
def OUTPUT_EXTENSIONS : List (String × String) :=
  [(".webp", ".png"), (".avif", ".png"), (".svg", ".png"),
   (".mp3", ".wav"), (".mp4", ".wav"), (".m4a", ".wav")]

/-- `CONVERTERS`: (input extension, output extension) ↦ conversion function. -/
def CONVERTERS : List ((String × String) × Converter) :=
  [((".webp", ".png"), .convert_webp_to_png),
   ((".avif", ".png"), .convert_avif_to_png),
   ((".svg", ".png"), .convert_svg_to_png),
   ((".mp3", ".wav"), .convert_mp3_to_wav),
   ((".mp4", ".wav"), .convert_mp4_to_wav),
   ((".m4a", ".wav"), .convert_m4a_to_wav)]

/-! ### The path resolver (`auto_generate_output_path`, `get_safe_output_path`) -/

/-- `auto_generate_output_path(input_path)`: looks up the lower-cased input
extension in `OUTPUT_EXTENSIONS` and replaces the extension, or returns `None`
(here `none`) when the extension is unregistered. -/
def auto_generate_output_path (input_path : FsPath) : Option FsPath :=
  match dictLookup OUTPUT_EXTENSIONS (strLower (nameSuffix input_path.name)) with
  | none => none
  | some output_ext => some (withSuffix input_path output_ext)

/-- The candidate filename probed by `get_safe_output_path`'s loop:
Python's `f"{stem} ({counter}){suffix}"`. -/
def probeChars (stem suf : List Char) (counter : Nat) : List Char :=
  stem ++ (' ' :: '(' :: (counterChars counter ++ ')' :: suf))

/-- String form of `probeChars`, split at the stem/suffix of `p.name`; the
probed path keeps `p`'s parent directory (`parent / new_name`). -/
def probePath (p : FsPath) (counter : Nat) : FsPath :=
  ⟨p.parent, ⟨probeChars (nameSplit p.name.data).1 (nameSplit p.name.data).2 counter⟩⟩

/-- The probed paths are pairwise distinct (the decimal counter is injective
and the surrounding characters are fixed). -/
def probePath_inj (p : FsPath) : ∀ m n, probePath p m = probePath p n → m = n := by
  intro m n h
  have hname : probeChars (nameSplit p.name.data).1 (nameSplit p.name.data).2 m =
      probeChars (nameSplit p.name.data).1 (nameSplit p.name.data).2 n := by
    have := congrArg (fun q => q.name.data) h
    simpa [probePath] using this
  simp only [probeChars] at hname
  have h1 := List.append_cancel_left hname
  have h2 : counterChars m ++ ')' :: (nameSplit p.name.data).2 =
      counterChars n ++ ')' :: (nameSplit p.name.data).2 := by
    have h1a := List.cons.inj h1
    exact (List.cons.inj h1a.2).2
  exact counterChars_inj m n (List.append_cancel_right h2)

/-- Termination of the deconfliction loop: over a finite filesystem some
probed counter is unoccupied (the probes are pairwise distinct, so they cannot
all lie in the finite list `fs`). -/
def exists_free_probe (fs : List FsPath) (p : FsPath) :
    ∃ k : Nat, probePath p (k + 1) ∉ fs := by
  by_contra hall
  push_neg at hall
  have hnd : ((List.range (fs.length + 1)).map fun j => probePath p (j + 1)).Nodup := by
    refine (List.nodup_range _).map ?_
    intro a b hab
    have := probePath_inj p (a + 1) (b + 1) hab
    omega
  have hsub : ((List.range (fs.length + 1)).map fun j => probePath p (j + 1)) ⊆ fs := by
    intro x hx
    obtain ⟨j, _, rfl⟩ := List.mem_map.mp hx
    exact hall j
  have hle := (List.subperm_of_subset hnd hsub).length_le
  simp only [List.length_map, List.length_range] at hle
  omega

/-- `get_safe_output_path(output_path)`: returns `output_path` when it does
not exist; otherwise probes `"{stem} (1){suffix}"`, `"{stem} (2){suffix}"`, …
and returns the first candidate that does not exist (`Nat.find` picks the
least free counter, exactly as the `counter += 1` loop does). -/
def get_safe_output_path (fs : List FsPath) (output_path : FsPath) : FsPath :=
  if output_path ∈ fs then
    probePath output_path (Nat.find (exists_free_probe fs output_path) + 1)
  else output_path

/-! ### The single-file dispatcher (`convert_single_file`) -/

/-- Outcome of one dispatched job, as reported by `convert_single_file`:
the "Unsupported conversion" error naming both extensions, the success line
with the final (possibly renamed) output path, or the caught converter
exception with its message. -/
inductive SingleResult where
  | unsupported (input_ext output_ext : String)
  | success (final_output : FsPath)
  | failed (input : FsPath) (msg : String)
deriving DecidableEq, Repr

/-- A recorded call of a converter capability: which converter was invoked,
on which input path, writing to which output path. -/
abbrev Invocation := Converter × FsPath × FsPath

/-- Behaviour of the external converter capabilities: given the converter and
the (input, output) paths it either succeeds or raises an error message. -/
abbrev ConverterRun := Converter → FsPath → FsPath → Except String Unit

/-- `convert_single_file(input_path, output_path)`: looks up
`(input_ext, output_ext)` (lower-cased suffixes) in `CONVERTERS`; on a miss it
reports the unsupported conversion without touching any converter; on a hit it
deconflicts the output path with `get_safe_output_path` and invokes the
converter, turning a raised exception into a reported failure. The second
component records the converter invocations performed (at most one). -/
def convert_single_file (fs : List FsPath) (run : ConverterRun)
    (input_path output_path : FsPath) : SingleResult × List Invocation :=
  let input_ext := strLower (nameSuffix input_path.name)
  let output_ext := strLower (nameSuffix output_path.name)
  match dictLookup CONVERTERS (input_ext, output_ext) with
  | none => (.unsupported input_ext output_ext, [])
  | some converter =>
    let safe_output_path := get_safe_output_path fs output_path
    match run converter input_path safe_output_path with
    | .ok _ => (.success safe_output_path, [(converter, input_path, safe_output_path)])
    | .error e => (.failed input_path e, [(converter, input_path, safe_output_path)])

/-! ### The batch orchestrator (`cli`) -/

/-- Accumulated state while a batch of files is processed: the evolving
filesystem (successful conversions create their output file) and the jobs,
per-job results, converter invocations and skipped files, in order. -/
structure BatchState where
  fs : List FsPath
  jobs : List (FsPath × FsPath) := []
  results : List SingleResult := []
  invocations : List Invocation := []
  skipped : List FsPath := []
deriving Repr

/-- Dispatches one (input, output) job through `convert_single_file` and
records its outcome; a successful conversion adds the final output path to
the filesystem. -/
def dispatchJob (run : ConverterRun) (st : BatchState) (i o : FsPath) : BatchState :=
  let r := (convert_single_file st.fs run i o).1
  let inv := (convert_single_file st.fs run i o).2
  { fs := match r with | .success q => q :: st.fs | _ => st.fs,
    jobs := st.jobs ++ [(i, o)],
    results := st.results ++ [r],
    invocations := st.invocations ++ inv,
    skipped := st.skipped }

/-- One iteration of the explicit-list loop: derive the default output path;
an unsupported extension is skipped ("Skipping …: Unsupported format"),
otherwise the job is dispatched. -/
def stepFile (run : ConverterRun) (st : BatchState) (f : FsPath) : BatchState :=
  match auto_generate_output_path f with
  | none => { st with skipped := st.skipped ++ [f] }
  | some o => dispatchJob run st f o

/-- The `--batch` loop body: derive the default output path and dispatch.
Unlike the explicit-list loop there is NO `None` check here, so a scanned
entry with an unregistered extension makes `convert_single_file` dereference
`None` (`output_path.suffix`), i.e. the invocation crashes with an uncaught
`AttributeError` (second component `true`) and the remaining files are not
processed. -/
def processBatchFiles (run : ConverterRun) : BatchState → List FsPath → BatchState × Bool
  | st, [] => (st, false)
  | st, f :: rest =>
    match auto_generate_output_path f with
    | none => (st, true)
    | some o => processBatchFiles run (dispatchJob run st f o) rest

/-- Directory scan of `--batch` mode: for each registered input extension, in
registry order, collect the directory entries matched by `glob(f"*{ext}")`.
The glob pattern `*X` matches exactly the entry names that end with `X`
(`*` also matches the empty prefix, so e.g. a bare `".webp"` is matched). -/
def scanDirectory (entries : List String) : List String :=
  ((OUTPUT_EXTENSIONS.map Prod.fst).map
    (fun ext => entries.filter (fun n => ext.data.isSuffixOf n.data))).flatten

/-- Everything observable about one `cli` invocation: the process exit code
(0 for a normal return, 1 for `click.Abort` or an uncaught exception), the
dispatched jobs, the per-job results, the converter invocations, the skipped
and missing files, whether the batch branch reported "No supported files
found", and the final filesystem. -/
structure CliTrace where
  exitCode : Nat
  jobs : List (FsPath × FsPath) := []
  results : List SingleResult := []
  invocations : List Invocation := []
  skipped : List FsPath := []
  missing : List FsPath := []
  nothingToDo : Bool := false
  finalFs : List FsPath
deriving DecidableEq, Repr

/-- The explicit-list branch of `cli` (one file with auto output, or three or
more files): first every listed input is checked for existence and, if any is
missing, all missing ones are reported and the invocation aborts; otherwise
each file is processed in order. -/
def runExplicitList (fs : List FsPath) (run : ConverterRun) (files : List FsPath) : CliTrace :=
  let missing := files.filter (fun f => decide (f ∉ fs))
  if missing.isEmpty then
    let st := files.foldl (stepFile run) { fs := fs }
    { exitCode := 0, jobs := st.jobs, results := st.results,
      invocations := st.invocations, skipped := st.skipped, finalFs := st.fs }
  else
    { exitCode := 1, missing := missing, finalFs := fs }

/-- The `cli` entry point. `input_files` are the positional arguments (already
parsed into paths), `batch` the `--batch` directory (its path and the names of
the entries it directly contains, in scan order), and `prompt_answer` the path
the user would type in interactive mode. Control flow mirrors `cli.py`:
`--batch` scans and converts everything it finds (an empty scan is the
"nothing to do" outcome, a normal return); no arguments prompts for one input;
exactly two arguments are a single (input, output) pair; otherwise every
argument is an input file with a derived output path. -/
def cli (fs : List FsPath) (run : ConverterRun) (input_files : List FsPath)
    (batch : Option (String × List String)) (prompt_answer : FsPath) : CliTrace :=
  match batch with
  | some (dir, entries) =>
    let names := scanDirectory entries
    if names.isEmpty then
      { exitCode := 0, nothingToDo := true, finalFs := fs }
    else
      let files := names.map (fun n => FsPath.mk dir n)
      let pr := processBatchFiles run { fs := fs } files
      { exitCode := if pr.2 then 1 else 0, jobs := pr.1.jobs, results := pr.1.results,
        invocations := pr.1.invocations, skipped := [], finalFs := pr.1.fs }
  | none =>
    match input_files with
    | [] =>
      if prompt_answer ∈ fs then runExplicitList fs run [prompt_answer]
      else { exitCode := 1, missing := [prompt_answer], finalFs := fs }
    | [input_path, output_path] =>
      if input_path ∈ fs then
        let r := (convert_single_file fs run input_path output_path).1
        { exitCode := 0, jobs := [(input_path, output_path)], results := [r],
          invocations := (convert_single_file fs run input_path output_path).2,
          finalFs := match r with | .success q => q :: fs | _ => fs }
      else { exitCode := 1, missing := [input_path], finalFs := fs }
    | files => runExplicitList fs run files

/-- The set of argument paths whose existence `cli` checks before converting:
the prompted path in interactive mode, only the input (first) path when
exactly two arguments are given, and every argument otherwise. -/
def checkedInputs (input_files : List FsPath) (prompt_answer : FsPath) : List FsPath :=
  match input_files with
  | [] => [prompt_answer]
  | [input_path, _] => [input_path]
  | files => files

/-- A converter oracle that always succeeds (used in concrete scenarios). -/
def runOkAll : ConverterRun := fun _ _ _ => .ok ()

/-- A converter oracle that always raises (used in concrete scenarios). -/
def runFailAll : ConverterRun := fun _ _ _ => .error "codec failure"

/-! ## Helper lemmas -/

/-- The deconflicted path never exists in the filesystem model. -/
theorem gsop_not_mem (fs : List FsPath) (p : FsPath) : get_safe_output_path fs p ∉ fs := by
  unfold get_safe_output_path
  split
  · exact Nat.find_spec (exists_free_probe fs p)
  · assumption

/-- Evaluation rule for `get_safe_output_path` on an occupied path: if
counter `n + 1` is free and all smaller positive counters are occupied, the
loop returns the `n + 1` probe. -/
theorem gsop_spec_mem (fs : List FsPath) (p : FsPath) (hmem : p ∈ fs) (n : Nat)
    (hfree : probePath p (n + 1) ∉ fs) (hbusy : ∀ j, j < n → probePath p (j + 1) ∈ fs) :
    get_safe_output_path fs p = probePath p (n + 1) := by
  unfold get_safe_output_path
  rw [if_pos hmem]
  have : Nat.find (exists_free_probe fs p) = n :=
    Nat.find_eq_iff (exists_free_probe fs p) |>.mpr
      ⟨hfree, fun m hm => not_not_intro (hbusy m hm)⟩
  rw [this]

/-- The deconflicted path keeps the parent directory of its argument. -/
theorem gsop_parent (fs : List FsPath) (p : FsPath) :
    (get_safe_output_path fs p).parent = p.parent := by
  unfold get_safe_output_path
  split <;> rfl

/-- `nameSplit` finds a decomposition at the last dot whenever one exists
with nonempty stem and nonempty post-dot part. -/
theorem nameSplit_decomp (l pre post : List Char) (hl : l = pre ++ '.' :: post)
    (hpre : pre ≠ []) (hpost : post ≠ []) (hnd : '.' ∉ post) :
    nameSplit l = (pre, '.' :: post) := by
  have hrev : l.reverse = post.reverse ++ '.' :: pre.reverse := by
    rw [hl]; simp
  have hsplit : splitDotRev l.reverse = some (post.reverse, pre.reverse) := by
    rw [hrev]
    exact splitDotRev_of_decomp _ _ (by simpa using hnd)
  simp only [nameSplit, hsplit]
  rw [if_neg]
  · simp
  · simp [hpre, hpost]

/-- Stem and suffix reassemble to the whole name. -/
theorem nameSplit_append (l : List Char) : (nameSplit l).1 ++ (nameSplit l).2 = l := by
  match hm : splitDotRev l.reverse with
  | none => simp [nameSplit, hm]
  | some (a, b) =>
    obtain ⟨h1, _⟩ := splitDotRev_eq_some _ _ _ hm
    have hl : l = b.reverse ++ '.' :: a.reverse := by
      have := congrArg List.reverse h1
      simpa using this
    simp only [nameSplit, hm]
    split
    · simp
    · simpa using hl.symm

/-- Shape of a `nameSplit` answer: either the suffix is empty, or the name
decomposes at its last dot with nonempty stem and post-dot part. -/
theorem nameSplit_snd_cases (l : List Char) :
    (nameSplit l).2 = [] ∨
      ∃ pre post, l = pre ++ '.' :: post ∧ (nameSplit l).1 = pre ∧
        (nameSplit l).2 = '.' :: post ∧ pre ≠ [] ∧ post ≠ [] ∧ '.' ∉ post := by
  match hm : splitDotRev l.reverse with
  | none => left; simp [nameSplit, hm]
  | some (a, b) =>
    obtain ⟨h1, hnd⟩ := splitDotRev_eq_some _ _ _ hm
    have hl : l = b.reverse ++ '.' :: a.reverse := by
      have := congrArg List.reverse h1
      simpa using this
    by_cases hc : b = [] ∨ a = []
    · left; simp [nameSplit, hm, if_pos hc]
    · push_neg at hc
      have hcond : ¬(b = [] ∨ a = []) := by simp [hc.1, hc.2]
      right
      refine ⟨b.reverse, a.reverse, hl, ?_, ?_, ?_, ?_, ?_⟩
      · simp only [nameSplit, hm]; rw [if_neg hcond]
      · simp only [nameSplit, hm]; rw [if_neg hcond]
      · simp [hc.1]
      · simp [hc.2]
      · simpa using hnd

/-- The infix inserted by a probe (`" (<digits>)"` plus the closing paren)
contains no dot. -/
theorem dot_not_mem_spacer (k : Nat) : '.' ∉ ' ' :: '(' :: (counterChars k ++ [')']) := by
  intro h
  rcases List.mem_cons.mp h with h | h
  · exact absurd h.symm (by decide)
  rcases List.mem_cons.mp h with h | h
  · exact absurd h.symm (by decide)
  rcases List.mem_append.mp h with h | h
  · exact counterChars_no_dot k h
  · exact absurd (List.mem_singleton.mp h).symm (by decide)

/-- Probing preserves the `pathlib` suffix provided the original name does
not end with a dot. (A name ending in a dot has an empty suffix, while its
probed variant `"stem. (N)"` gains the suffix `". (N)"` — see the
counterexample for C10.) -/
theorem nameSplit_probe (l : List Char) (k : Nat) (h : l.getLast? ≠ some '.') :
    (nameSplit (probeChars (nameSplit l).1 (nameSplit l).2 k)).2 = (nameSplit l).2 := by
  rcases nameSplit_snd_cases l with hsf | ⟨pre, post, hl, hfst, hsnd, hpre, hpost, hnd⟩
  · -- empty suffix: the probe is `l ++ " (digits)"` and must stay suffix-free
    have hfst : (nameSplit l).1 = l := by
      have := nameSplit_append l
      rw [hsf] at this
      simpa using this
    rw [hsf, hfst]
    rcases nameSplit_snd_cases (probeChars l [] k) with hp | ⟨pre, post, hpl, _, _, hpre, hpost, hnd⟩
    · exact hp
    · exfalso
      simp only [probeChars, List.append_nil] at hpl
      rcases List.append_eq_append_iff.mp hpl with ⟨a, _, ha2⟩ | ⟨c, hc1, hc2⟩
      · -- the last dot would lie inside the dot-free spacer
        exact dot_not_mem_spacer k (ha2 ▸ by simp)
      · -- the dot splits `l` itself: `l = pre ++ '.' :: c1`
        match c, hc2 with
        | [], hc2 =>
          refine dot_not_mem_spacer k ?_
          simp only [List.nil_append] at hc2
          rw [← hc2]
          exact List.mem_cons_self _ _
        | x :: c1, hc2 =>
          obtain ⟨hx, hpost2⟩ := List.cons.inj hc2
          subst hx
          have hla : l = pre ++ '.' :: c1 := hc1
          have hndc1 : '.' ∉ c1 := fun hmm => hnd (hpost2 ▸ List.mem_append_left _ hmm)
          match c1, hla, hndc1 with
          | [], hla, _ =>
            -- l ends with a dot
            apply h
            rw [hla, ← List.concat_eq_append]
            simp
          | y :: c2, hla, hndc1 =>
            have := nameSplit_decomp l pre (y :: c2) hla hpre (by simp) hndc1
            rw [this] at hsf
            simp at hsf
  · -- nonempty suffix `'.'::post`: the probe ends with the same suffix
    rw [hfst, hsnd]
    have : probeChars pre ('.' :: post) k =
        (pre ++ (' ' :: '(' :: (counterChars k ++ [')']))) ++ '.' :: post := by
      simp [probeChars]
    rw [this, nameSplit_decomp _ _ _ rfl (by simp [hpre]) hpost hnd]

/-- A `dict` lookup succeeds exactly on the stored keys. -/
theorem dictLookup_isSome_iff {α β : Type} [DecidableEq α] (l : List (α × β)) (k : α) :
    (dictLookup l k).isSome ↔ k ∈ l.map Prod.fst := by
  induction l with
  | nil => simp [dictLookup]
  | cons kv rest ih =>
    obtain ⟨k0, v0⟩ := kv
    by_cases hk : k = k0
    · subst hk; simp [dictLookup]
    · simp [dictLookup, hk, ih]

/-- A missing-file filter is empty exactly when every file exists. -/
theorem missing_filter_empty_iff (fs files : List FsPath) :
    (files.filter fun f => decide (f ∉ fs)).isEmpty = true ↔ ∀ f ∈ files, f ∈ fs := by
  rw [List.isEmpty_iff, List.filter_eq_nil_iff]
  simp

/-- Exit code of the explicit-list branch: 0 exactly when every listed file
exists (conversion outcomes never influence it). -/
theorem runExplicitList_exit (fs : List FsPath) (run : ConverterRun) (files : List FsPath) :
    (runExplicitList fs run files).exitCode = 0 ↔ ∀ f ∈ files, f ∈ fs := by
  simp only [runExplicitList]
  split
  next h => simpa using (missing_filter_empty_iff fs files).mp h
  next h =>
    have hnot : ¬ ∀ f ∈ files, f ∈ fs := fun hall =>
      h ((missing_filter_empty_iff fs files).mpr hall)
    simpa using hnot

/-- The explicit-list branch aborts untouched when a listed file is missing. -/
theorem runExplicitList_abort (fs : List FsPath) (run : ConverterRun) (files : List FsPath)
    (h : files.filter (fun f => decide (f ∉ fs)) ≠ []) :
    runExplicitList fs run files =
      { exitCode := 1, missing := files.filter (fun f => decide (f ∉ fs)), finalFs := fs } := by
  simp only [runExplicitList]
  rw [if_neg (by simpa [List.isEmpty_iff] using h)]

/-- Jobs and skips of the explicit-list loop: every file with a derivable
output becomes a job (in order, with its derived output), every other file is
skipped. -/
theorem foldl_stepFile_spec (run : ConverterRun) (files : List FsPath) :
    ∀ st : BatchState,
      (files.foldl (stepFile run) st).jobs =
        st.jobs ++ files.filterMap
          (fun f => (auto_generate_output_path f).map (fun o => (f, o))) ∧
      (files.foldl (stepFile run) st).skipped =
        st.skipped ++ files.filter
          (fun f => decide (auto_generate_output_path f = none)) := by
  induction files with
  | nil => intro st; simp
  | cons f rest ih =>
    intro st
    match hf : auto_generate_output_path f with
    | none =>
      obtain ⟨h1, h2⟩ := ih { st with skipped := st.skipped ++ [f] }
      constructor
      · simpa [stepFile, hf, List.filterMap_cons, hf] using h1
      · simpa [stepFile, hf, List.filter_cons, hf] using h2
    | some o =>
      obtain ⟨h1, h2⟩ := ih (dispatchJob run st f o)
      constructor
      · simpa [stepFile, hf, dispatchJob, List.filterMap_cons] using h1
      · simpa [stepFile, hf, dispatchJob, List.filter_cons] using h2

/-- The `--batch` loop does not crash when every scanned file has a
derivable output path. -/
theorem processBatchFiles_no_crash (run : ConverterRun) (files : List FsPath) :
    ∀ st : BatchState, (∀ f ∈ files, auto_generate_output_path f ≠ none) →
      (processBatchFiles run st files).2 = false := by
  induction files with
  | nil => intro st _; rfl
  | cons f rest ih =>
    intro st hall
    match hf : auto_generate_output_path f with
    | none => exact absurd hf (hall f (by simp))
    | some o =>
      simp only [processBatchFiles, hf]
      exact ih _ (fun g hg => hall g (by simp [hg]))

/-- The `--batch` loop crashes (uncaught `AttributeError`) whenever some
scanned file has no derivable output path. -/
theorem processBatchFiles_crash (run : ConverterRun) (files : List FsPath) :
    ∀ st : BatchState, (∃ f ∈ files, auto_generate_output_path f = none) →
      (processBatchFiles run st files).2 = true := by
  induction files with
  | nil => intro st h; simp at h
  | cons f rest ih =>
    intro st hex
    match hf : auto_generate_output_path f with
    | none => simp [processBatchFiles, hf]
    | some o =>
      simp only [processBatchFiles, hf]
      rcases hex with ⟨g, hg, hgnone⟩
      rcases List.mem_cons.mp hg with rfl | hg
      · exact absurd hgnone (by simp [hf])
      · exact ih _ ⟨g, hg, hgnone⟩

/-! ## C4 — converter lookup table -/

/-- C4 (counterexample): the claim lists `.svgz → .png` and `.m4v → .wav`
among the registered pairs, but `CONVERTERS` has no entry for either pair, so
the registry lookup reports NotFound for them (those extensions are accepted
only inside the svg/mp4 converter functions, not by the registry). -/
theorem c4_registry_counterexample :
    dictLookup CONVERTERS (".svgz", ".png") = none ∧
    dictLookup CONVERTERS (".m4v", ".wav") = none := by decide

/-- C4 (amended): the converter lookup succeeds for exactly the six
registered pairs `.webp/.avif/.svg → .png` and `.mp3/.mp4/.m4a → .wav`, and
reports NotFound for every other (input extension, output extension) pair. -/
theorem c4_registry_exact_pairs (input_ext output_ext : String) :
    (dictLookup CONVERTERS (input_ext, output_ext)).isSome ↔
      (input_ext, output_ext) ∈
        [(".webp", ".png"), (".avif", ".png"), (".svg", ".png"),
         (".mp3", ".wav"), (".mp4", ".wav"), (".m4a", ".wav")] := by
  rw [dictLookup_isSome_iff]
  have : CONVERTERS.map Prod.fst =
      [(".webp", ".png"), (".avif", ".png"), (".svg", ".png"),
       (".mp3", ".wav"), (".mp4", ".wav"), (".m4a", ".wav")] := rfl
  rw [this]

/-! ## C5 — deconfliction probes counters in increasing order -/

/-- C5: `get_safe_output_path` returns a non-existing path unchanged, and an
existing path is renamed to the probe `"{stem} (k){suffix}"` with the least
positive counter `k` whose probe does not exist; in particular with
`image.png` and `image (1).png` both existing, `image.png` resolves to
`image (2).png`. -/
theorem c5_deconflict_first_free (fs : List FsPath) (p : FsPath) :
    (p ∉ fs → get_safe_output_path fs p = p) ∧
    (p ∈ fs → ∃ k, 0 < k ∧ get_safe_output_path fs p = probePath p k ∧
      probePath p k ∉ fs ∧ ∀ j, 0 < j → j < k → probePath p j ∈ fs) ∧
    get_safe_output_path [⟨"", "image.png"⟩, ⟨"", "image (1).png"⟩] ⟨"", "image.png"⟩ =
      ⟨"", "image (2).png"⟩ := by
  refine ⟨fun h => by simp [get_safe_output_path, h], fun h => ?_, ?_⟩
  · refine ⟨Nat.find (exists_free_probe fs p) + 1, by omega,
      by simp [get_safe_output_path, h], Nat.find_spec (exists_free_probe fs p), ?_⟩
    intro j hj0 hjlt
    match j, hj0, hjlt with
    | m + 1, _, hjlt =>
      have := Nat.find_min (exists_free_probe fs p) (m := m) (by omega)
      exact not_not.mp this
  · have heval := gsop_spec_mem [⟨"", "image.png"⟩, ⟨"", "image (1).png"⟩] ⟨"", "image.png"⟩
      (by decide) 1 (by decide) ?_
    · rw [heval]; decide
    · intro j hj
      match j, hj with
      | 0, _ => decide

/-- C5 (witness): concrete instance of the non-existing branch. -/
theorem c5_witness :
    ((⟨"", "fresh.png"⟩ : FsPath) ∉ ([] : List FsPath)) ∧
    get_safe_output_path [] ⟨"", "fresh.png"⟩ = ⟨"", "fresh.png"⟩ :=
  ⟨by decide, (c5_deconflict_first_free [] ⟨"", "fresh.png"⟩).1 (by decide)⟩

/-! ## C6 — the dispatcher deconflicts before invoking the converter -/

/-- C6: when the extension pair resolves in the registry, the dispatcher
invokes the converter exactly once, on the deconflicted output path — which
does not exist in the filesystem model, so a pre-existing file is never
overwritten — and a successful conversion reports that final (possibly
renamed) path. -/
theorem c6_dispatcher_deconflicts (fs : List FsPath) (run : ConverterRun)
    (input_path output_path : FsPath) (conv : Converter)
    (h : dictLookup CONVERTERS
      (strLower (nameSuffix input_path.name), strLower (nameSuffix output_path.name)) =
        some conv) :
    (convert_single_file fs run input_path output_path).2 =
      [(conv, input_path, get_safe_output_path fs output_path)] ∧
    get_safe_output_path fs output_path ∉ fs ∧
    (∀ u, run conv input_path (get_safe_output_path fs output_path) = .ok u →
      (convert_single_file fs run input_path output_path).1 =
        .success (get_safe_output_path fs output_path)) := by
  refine ⟨?_, gsop_not_mem fs output_path, ?_⟩
  · simp only [convert_single_file, h]
    cases run conv input_path (get_safe_output_path fs output_path) <;> rfl
  · intro u hu
    simp only [convert_single_file, h, hu]

/-- C6 (witness): converting `a.webp` to `a.png` over an empty filesystem. -/
theorem c6_witness :
    (dictLookup CONVERTERS
      (strLower (nameSuffix "a.webp"), strLower (nameSuffix "a.png")) =
        some .convert_webp_to_png) ∧
    ((convert_single_file [] runOkAll ⟨"", "a.webp"⟩ ⟨"", "a.png"⟩).2 =
      [(.convert_webp_to_png, ⟨"", "a.webp"⟩, get_safe_output_path [] ⟨"", "a.png"⟩)] ∧
    get_safe_output_path [] ⟨"", "a.png"⟩ ∉ ([] : List FsPath) ∧
    (∀ u, runOkAll .convert_webp_to_png ⟨"", "a.webp"⟩ (get_safe_output_path [] ⟨"", "a.png"⟩) =
        .ok u →
      (convert_single_file [] runOkAll ⟨"", "a.webp"⟩ ⟨"", "a.png"⟩).1 =
        .success (get_safe_output_path [] ⟨"", "a.png"⟩))) :=
  ⟨by decide,
    c6_dispatcher_deconflicts [] runOkAll ⟨"", "a.webp"⟩ ⟨"", "a.png"⟩
      .convert_webp_to_png (by decide)⟩

/-! ## C7 — default output path derivation -/

/-- C7: for a registered (lower-cased) input extension,
`auto_generate_output_path` replaces the extension with the registry's
default output extension, preserving directory and stem (`a/b.webp ↦
a/b.png`); for an unregistered extension it reports NotFound (`None`). -/
theorem c7_auto_output (p : FsPath) :
    (∀ out_ext, dictLookup OUTPUT_EXTENSIONS (strLower (nameSuffix p.name)) = some out_ext →
      auto_generate_output_path p = some ⟨p.parent, nameStem p.name ++ out_ext⟩) ∧
    (dictLookup OUTPUT_EXTENSIONS (strLower (nameSuffix p.name)) = none →
      auto_generate_output_path p = none) ∧
    auto_generate_output_path ⟨"a", "b.webp"⟩ = some ⟨"a", "b.png"⟩ ∧
    auto_generate_output_path ⟨"", "x.unknownext"⟩ = none := by
  refine ⟨?_, ?_, by decide, by decide⟩
  · intro out_ext h
    have hsfx : nameSuffix p.name ≠ "" := by
      intro he
      rw [he] at h
      rw [show strLower "" = "" from rfl] at h
      rw [show dictLookup OUTPUT_EXTENSIONS "" = (none : Option String) from by decide] at h
      cases h
    simp only [auto_generate_output_path, h, withSuffix, if_neg hsfx]
  · intro h
    simp only [auto_generate_output_path, h]

/-- C7 (witness): the registered branch at `a/b.webp`. -/
theorem c7_witness :
    (dictLookup OUTPUT_EXTENSIONS (strLower (nameSuffix "b.webp")) = some ".png") ∧
    auto_generate_output_path ⟨"a", "b.webp"⟩ = some ⟨"a", nameStem "b.webp" ++ ".png"⟩ :=
  ⟨by decide, (c7_auto_output ⟨"a", "b.webp"⟩).1 ".png" (by decide)⟩

/-! ## C8 — unsupported conversions are rejected without invoking a converter -/

/-- C8: when the (input extension, output extension) pair does not resolve in
the registry, the dispatcher reports an unsupported conversion naming both
extensions, and no converter capability is invoked (empty invocation list). -/
theorem c8_unsupported_conversion (fs : List FsPath) (run : ConverterRun)
    (input_path output_path : FsPath)
    (h : dictLookup CONVERTERS
      (strLower (nameSuffix input_path.name), strLower (nameSuffix output_path.name)) = none) :
    convert_single_file fs run input_path output_path =
      (.unsupported (strLower (nameSuffix input_path.name))
        (strLower (nameSuffix output_path.name)), []) := by
  simp only [convert_single_file, h]

/-- C8 (witness): a `.txt → .png` request is rejected with no invocation. -/
theorem c8_witness :
    (dictLookup CONVERTERS
      (strLower (nameSuffix "c.txt"), strLower (nameSuffix "c.png")) = none) ∧
    convert_single_file [] runOkAll ⟨"", "c.txt"⟩ ⟨"", "c.png"⟩ =
      (.unsupported ".txt" ".png", []) :=
  ⟨by decide, c8_unsupported_conversion [] runOkAll ⟨"", "c.txt"⟩ ⟨"", "c.png"⟩ (by decide)⟩

/-! ## C10 — deconfliction terminates, avoids the model, keeps parent and extension -/

/-- C10 (counterexample): for a name ending in a dot the renamed path changes
the `pathlib` extension: `"x."` has suffix `""`, but its probe `"x. (1)"`
has suffix `". (1)"`. -/
theorem c10_counterexample :
    get_safe_output_path [⟨"", "x."⟩] ⟨"", "x."⟩ = ⟨"", "x. (1)"⟩ ∧
    nameSuffix "x. (1)" = ". (1)" ∧ nameSuffix "x." = "" := by
  refine ⟨?_, by decide, by decide⟩
  have heval := gsop_spec_mem [⟨"", "x."⟩] ⟨"", "x."⟩ (by decide) 0 (by decide)
    (fun j hj => absurd hj (by omega))
  rw [heval]; decide

/-- C10 (amended): over any finite filesystem model the (total, hence
terminating) `get_safe_output_path` returns a path outside the model with the
same parent directory, and — provided the argument's filename does not end
with a dot — the same `pathlib` extension. -/
theorem c10_safe_path_properties (fs : List FsPath) (p : FsPath) :
    get_safe_output_path fs p ∉ fs ∧
    (get_safe_output_path fs p).parent = p.parent ∧
    (p.name.data.getLast? ≠ some '.' →
      nameSuffix (get_safe_output_path fs p).name = nameSuffix p.name) := by
  refine ⟨gsop_not_mem fs p, gsop_parent fs p, fun h => ?_⟩
  unfold get_safe_output_path
  split
  · show nameSuffix ⟨probeChars (nameSplit p.name.data).1 (nameSplit p.name.data).2 _⟩ =
      nameSuffix p.name
    simp only [nameSuffix]
    congr 1
    exact nameSplit_probe p.name.data _ h
  · rfl

/-- C10 (witness): the extension-preservation branch at a dot-free-tail name. -/
theorem c10_witness :
    (("doc.png" : String).data.getLast? ≠ some '.') ∧
    nameSuffix (get_safe_output_path [⟨"", "doc.png"⟩] ⟨"", "doc.png"⟩).name =
      nameSuffix "doc.png" :=
  ⟨by decide, (c10_safe_path_properties [⟨"", "doc.png"⟩] ⟨"", "doc.png"⟩).2.2 (by decide)⟩

/-! ## C1 — exit status -/

/-- C1 (counterexample): a single-file invocation whose conversion fails
(converter raises) still exits with status 0 — the dispatcher swallows the
exception and `cli` never tracks failures. -/
theorem c1_counterexample :
    (cli [⟨"", "a.webp"⟩] runFailAll [⟨"", "a.webp"⟩] none ⟨"", ""⟩).results =
      [.failed ⟨"", "a.webp"⟩ "codec failure"] ∧
    (cli [⟨"", "a.webp"⟩] runFailAll [⟨"", "a.webp"⟩] none ⟨"", ""⟩).exitCode = 0 := by
  decide

/-- C1 (amended): without `--batch`, the exit status is 0 exactly when every
checked input path exists (conversion failures do not affect it — the `run`
oracle is arbitrary); with `--batch`, an empty scan ("nothing to do") and a
crash-free batch exit 0 — again regardless of conversion outcomes — while a
scanned entry with no derivable output path crashes the invocation with exit
status 1. -/
theorem c1_exit_status (fs : List FsPath) (run : ConverterRun) (input_files : List FsPath)
    (prompt_answer : FsPath) :
    ((cli fs run input_files none prompt_answer).exitCode = 0 ↔
      ∀ f ∈ checkedInputs input_files prompt_answer, f ∈ fs) ∧
    (∀ dir entries, scanDirectory entries = [] →
      (cli fs run input_files (some (dir, entries)) prompt_answer).exitCode = 0 ∧
      (cli fs run input_files (some (dir, entries)) prompt_answer).nothingToDo = true) ∧
    (∀ dir entries,
      (∀ n ∈ scanDirectory entries, auto_generate_output_path ⟨dir, n⟩ ≠ none) →
      (cli fs run input_files (some (dir, entries)) prompt_answer).exitCode = 0) ∧
    (∀ dir entries,
      (∃ n ∈ scanDirectory entries, auto_generate_output_path ⟨dir, n⟩ = none) →
      (cli fs run input_files (some (dir, entries)) prompt_answer).exitCode = 1) := by
  refine ⟨?_, ?_, ?_, ?_⟩
  · match input_files with
    | [] =>
      have hch : checkedInputs [] prompt_answer = [prompt_answer] := rfl
      rw [hch]
      show (if prompt_answer ∈ fs then runExplicitList fs run [prompt_answer]
        else { exitCode := 1, missing := [prompt_answer], finalFs := fs }).exitCode = 0 ↔ _
      split
      next h => rw [runExplicitList_exit]
      next h => simp [h]
    | [i, o] =>
      have hch : checkedInputs [i, o] prompt_answer = [i] := rfl
      rw [hch]
      show (if i ∈ fs then _ else ({ exitCode := 1, missing := [i], finalFs := fs } :
        CliTrace)).exitCode = 0 ↔ _
      split
      next h => simp [h]
      next h => simp [h]
    | [f1] =>
      have hcli : cli fs run [f1] none prompt_answer = runExplicitList fs run [f1] := rfl
      have hch : checkedInputs [f1] prompt_answer = [f1] := rfl
      rw [hcli, hch, runExplicitList_exit]
    | f1 :: f2 :: f3 :: rest =>
      have hcli : cli fs run (f1 :: f2 :: f3 :: rest) none prompt_answer =
        runExplicitList fs run (f1 :: f2 :: f3 :: rest) := rfl
      have hch : checkedInputs (f1 :: f2 :: f3 :: rest) prompt_answer =
        f1 :: f2 :: f3 :: rest := rfl
      rw [hcli, hch, runExplicitList_exit]
  · intro dir entries h
    constructor <;> simp [cli, h]
  · intro dir entries h
    by_cases hN : scanDirectory entries = []
    · simp [cli, hN]
    · simp only [cli]
      rw [if_neg (by simpa [List.isEmpty_iff] using hN)]
      have hcrash : (processBatchFiles run { fs := fs }
          ((scanDirectory entries).map (fun n => FsPath.mk dir n))).2 = false := by
        refine processBatchFiles_no_crash run _ _ ?_
        intro f hf
        obtain ⟨n, hn, rfl⟩ := List.mem_map.mp hf
        exact h n hn
      simp [hcrash]
  · intro dir entries h
    obtain ⟨n, hn, hnone⟩ := h
    have hN : scanDirectory entries ≠ [] := fun he => by rw [he] at hn; exact absurd hn (by simp)
    simp only [cli]
    rw [if_neg (by simpa [List.isEmpty_iff] using hN)]
    have hcrash : (processBatchFiles run { fs := fs }
        ((scanDirectory entries).map (fun n => FsPath.mk dir n))).2 = true :=
      processBatchFiles_crash run _ _ ⟨⟨dir, n⟩, List.mem_map.mpr ⟨n, hn, rfl⟩, hnone⟩
    simp [hcrash]

/-- C1 (witness): a failing conversion exits 0; an empty scan exits 0. -/
theorem c1_witness :
    (cli [⟨"", "a.webp"⟩] runFailAll [⟨"", "a.webp"⟩] none ⟨"", ""⟩).exitCode = 0 ∧
    (cli [] runOkAll [] (some ("d", ["c.txt"])) ⟨"", ""⟩).exitCode = 0 :=
  ⟨(c1_exit_status [⟨"", "a.webp"⟩] runFailAll [⟨"", "a.webp"⟩] ⟨"", ""⟩).1.mpr (by decide),
    ((c1_exit_status [] runOkAll [] ⟨"", ""⟩).2.1 "d" ["c.txt"] (by decide)).1⟩

/-! ## C2 — a missing input and the rest of the batch -/

/-- C2 (counterexample): with inputs `a.webp`, `b.webp`, `c.webp` of which
only `b.webp` is missing, the whole invocation aborts before converting
anything — the existing, supported siblings `a.webp` and `c.webp` are NOT
converted, contradicting "processing continues with the remaining files". -/
theorem c2_counterexample :
    (cli [⟨"", "a.webp"⟩, ⟨"", "c.webp"⟩] runOkAll
      [⟨"", "a.webp"⟩, ⟨"", "b.webp"⟩, ⟨"", "c.webp"⟩] none ⟨"", ""⟩).exitCode = 1 ∧
    (cli [⟨"", "a.webp"⟩, ⟨"", "c.webp"⟩] runOkAll
      [⟨"", "a.webp"⟩, ⟨"", "b.webp"⟩, ⟨"", "c.webp"⟩] none ⟨"", ""⟩).invocations = [] ∧
    (cli [⟨"", "a.webp"⟩, ⟨"", "c.webp"⟩] runOkAll
      [⟨"", "a.webp"⟩, ⟨"", "b.webp"⟩, ⟨"", "c.webp"⟩] none ⟨"", ""⟩).results = [] ∧
    (cli [⟨"", "a.webp"⟩, ⟨"", "c.webp"⟩] runOkAll
      [⟨"", "a.webp"⟩, ⟨"", "b.webp"⟩, ⟨"", "c.webp"⟩] none ⟨"", ""⟩).jobs = [] := by
  decide

/-- C2 (amended): in explicit-list mode (not the two-argument form) any
missing input file is detected up front: all missing files are reported, the
invocation aborts with exit status 1, and NO file — missing or present — is
converted. -/
theorem c2_missing_aborts (fs : List FsPath) (run : ConverterRun) (files : List FsPath)
    (prompt_answer : FsPath) (hne : files ≠ []) (h2 : files.length ≠ 2)
    (hmiss : files.filter (fun f => decide (f ∉ fs)) ≠ []) :
    cli fs run files none prompt_answer =
      { exitCode := 1, missing := files.filter (fun f => decide (f ∉ fs)), finalFs := fs } := by
  match files, hne, h2, hmiss with
  | [f1], _, _, hmiss =>
    have hcli : cli fs run [f1] none prompt_answer = runExplicitList fs run [f1] := rfl
    rw [hcli]
    exact runExplicitList_abort _ _ _ hmiss
  | [f1, f2], _, h2, _ => exact absurd rfl h2
  | f1 :: f2 :: f3 :: rest, _, _, hmiss =>
    have hcli : cli fs run (f1 :: f2 :: f3 :: rest) none prompt_answer =
      runExplicitList fs run (f1 :: f2 :: f3 :: rest) := rfl
    rw [hcli]
    exact runExplicitList_abort _ _ _ hmiss

/-- C2 (witness): the abort record at the three-file scenario. -/
theorem c2_witness :
    (([⟨"", "a.webp"⟩, ⟨"", "b.webp"⟩, ⟨"", "c.webp"⟩] : List FsPath).filter
      (fun f => decide (f ∉ [⟨"", "a.webp"⟩, ⟨"", "c.webp"⟩])) ≠ []) ∧
    cli [⟨"", "a.webp"⟩, ⟨"", "c.webp"⟩] runOkAll
        [⟨"", "a.webp"⟩, ⟨"", "b.webp"⟩, ⟨"", "c.webp"⟩] none ⟨"", ""⟩ =
      { exitCode := 1,
        missing := ([⟨"", "a.webp"⟩, ⟨"", "b.webp"⟩, ⟨"", "c.webp"⟩] : List FsPath).filter
          (fun f => decide (f ∉ [⟨"", "a.webp"⟩, ⟨"", "c.webp"⟩])),
        finalFs := [⟨"", "a.webp"⟩, ⟨"", "c.webp"⟩] } :=
  ⟨by decide,
    c2_missing_aborts [⟨"", "a.webp"⟩, ⟨"", "c.webp"⟩] runOkAll
      [⟨"", "a.webp"⟩, ⟨"", "b.webp"⟩, ⟨"", "c.webp"⟩] ⟨"", ""⟩
      (by decide) (by decide) (by decide)⟩

/-! ## C3 — multiple inputs processed independently -/

/-- C3 (counterexample): with exactly two input paths the second is treated
as the explicit OUTPUT path of the first, not as an input: `a.webp b.webp`
yields the single job `(a.webp, b.webp)`, rejected as an unsupported
`.webp → .webp` conversion — not two independently converted inputs. -/
theorem c3_counterexample :
    (cli [⟨"", "a.webp"⟩, ⟨"", "b.webp"⟩] runOkAll
      [⟨"", "a.webp"⟩, ⟨"", "b.webp"⟩] none ⟨"", ""⟩).jobs =
        [(⟨"", "a.webp"⟩, ⟨"", "b.webp"⟩)] ∧
    (cli [⟨"", "a.webp"⟩, ⟨"", "b.webp"⟩] runOkAll
      [⟨"", "a.webp"⟩, ⟨"", "b.webp"⟩] none ⟨"", ""⟩).results =
        [.unsupported ".webp" ".webp"] := by
  decide

/-- C3 (amended): with three or more existing input paths each listed path is
processed independently as an input file: every path with a derivable default
output becomes its own job (in order, with that derived output path) and the
others are skipped. With exactly two paths the second is an explicit output
path instead. -/
theorem c3_multi_independent (fs : List FsPath) (run : ConverterRun) (files : List FsPath)
    (prompt_answer : FsPath) (h3 : 3 ≤ files.length) (hall : ∀ f ∈ files, f ∈ fs) :
    (cli fs run files none prompt_answer).jobs =
      files.filterMap (fun f => (auto_generate_output_path f).map (fun o => (f, o))) ∧
    (cli fs run files none prompt_answer).skipped =
      files.filter (fun f => decide (auto_generate_output_path f = none)) := by
  match files, h3, hall with
  | f1 :: f2 :: f3 :: rest, _, hall =>
    have hcli : cli fs run (f1 :: f2 :: f3 :: rest) none prompt_answer =
      runExplicitList fs run (f1 :: f2 :: f3 :: rest) := rfl
    rw [hcli]
    have hm : ((f1 :: f2 :: f3 :: rest).filter fun f => decide (f ∉ fs)).isEmpty = true :=
      (missing_filter_empty_iff fs _).mpr hall
    simp only [runExplicitList]
    rw [if_pos hm]
    obtain ⟨h1, h2⟩ := foldl_stepFile_spec run (f1 :: f2 :: f3 :: rest) { fs := fs }
    exact ⟨by simpa using h1, by simpa using h2⟩
  | [], h3, _ => exact absurd h3 (by simp)
  | [f1], h3, _ => exact absurd h3 (by simp)
  | [f1, f2], h3, _ => exact absurd h3 (by simp)

/-- C3 (witness): three existing inputs, one with an unsupported extension:
two independent jobs with derived outputs, one skip. -/
theorem c3_witness :
    (3 ≤ ([⟨"", "a.webp"⟩, ⟨"", "n.txt"⟩, ⟨"", "c.avif"⟩] : List FsPath).length) ∧
    ((cli [⟨"", "a.webp"⟩, ⟨"", "n.txt"⟩, ⟨"", "c.avif"⟩] runOkAll
        [⟨"", "a.webp"⟩, ⟨"", "n.txt"⟩, ⟨"", "c.avif"⟩] none ⟨"", ""⟩).jobs =
      ([⟨"", "a.webp"⟩, ⟨"", "n.txt"⟩, ⟨"", "c.avif"⟩] : List FsPath).filterMap
        (fun f => (auto_generate_output_path f).map (fun o => (f, o))) ∧
    (cli [⟨"", "a.webp"⟩, ⟨"", "n.txt"⟩, ⟨"", "c.avif"⟩] runOkAll
        [⟨"", "a.webp"⟩, ⟨"", "n.txt"⟩, ⟨"", "c.avif"⟩] none ⟨"", ""⟩).skipped =
      ([⟨"", "a.webp"⟩, ⟨"", "n.txt"⟩, ⟨"", "c.avif"⟩] : List FsPath).filter
        (fun f => decide (auto_generate_output_path f = none))) :=
  ⟨by decide,
    c3_multi_independent [⟨"", "a.webp"⟩, ⟨"", "n.txt"⟩, ⟨"", "c.avif"⟩] runOkAll
      [⟨"", "a.webp"⟩, ⟨"", "n.txt"⟩, ⟨"", "c.avif"⟩] ⟨"", ""⟩ (by decide) (by decide)⟩

/-! ## C9 — directory scan -/

/-- C9 (counterexample): the scan matches entry NAMES against `*ext`, not
`pathlib` extensions: a file named exactly `.webp` has extension `""` (not in
the registry), yet it is enumerated — and the batch then crashes (exit 1)
instead of reporting "nothing to do". -/
theorem c9_counterexample :
    scanDirectory [".webp"] = [".webp"] ∧
    nameSuffix ".webp" = "" ∧
    dictLookup OUTPUT_EXTENSIONS (strLower (nameSuffix ".webp")) = none ∧
    (cli [] runOkAll [] (some ("d", [".webp"])) ⟨"", ""⟩).nothingToDo = false ∧
    (cli [] runOkAll [] (some ("d", [".webp"])) ⟨"", ""⟩).exitCode = 1 := by
  decide

/-- C9 (amended): the scan enumerates exactly the directly contained entries
whose NAME ends with a registered input extension (for names with a proper
extension this agrees with registry membership, but a bare dotfile such as
`.webp` is also enumerated); a directory with `a.webp`, `b.avif`, `c.txt`
yields exactly the jobs `a.webp` and `b.avif`; an empty scan is reported as
the distinct "nothing to do" outcome with exit status 0 and no jobs. -/
theorem c9_scan_spec :
    (∀ entries name, name ∈ scanDirectory entries ↔
      name ∈ entries ∧
        ∃ ext ∈ OUTPUT_EXTENSIONS.map Prod.fst, ext.data.isSuffixOf name.data = true) ∧
    scanDirectory ["a.webp", "b.avif", "c.txt"] = ["a.webp", "b.avif"] ∧
    (∀ fs run dir entries prompt_answer, scanDirectory entries = [] →
      (cli fs run [] (some (dir, entries)) prompt_answer).exitCode = 0 ∧
      (cli fs run [] (some (dir, entries)) prompt_answer).nothingToDo = true ∧
      (cli fs run [] (some (dir, entries)) prompt_answer).jobs = []) := by
  refine ⟨?_, by decide, ?_⟩
  · intro entries name
    simp only [scanDirectory, List.mem_flatten, List.mem_map, List.mem_filter]
    constructor
    · rintro ⟨l, ⟨ext, hext, rfl⟩, hname⟩
      obtain ⟨hmem, hsfx⟩ := List.mem_filter.mp hname
      exact ⟨hmem, ext, hext, hsfx⟩
    · rintro ⟨hmem, ext, hext, hsfx⟩
      exact ⟨_, ⟨ext, hext, rfl⟩, List.mem_filter.mpr ⟨hmem, hsfx⟩⟩
  · intro fs run dir entries prompt_answer h
    refine ⟨?_, ?_, ?_⟩ <;> simp [cli, h]

/-- C9 (witness): the example directory and the nothing-to-do branch. -/
theorem c9_witness :
    (scanDirectory ["c.txt"] = []) ∧
    ((cli [] runOkAll [] (some ("d", ["c.txt"])) ⟨"", ""⟩).exitCode = 0 ∧
      (cli [] runOkAll [] (some ("d", ["c.txt"])) ⟨"", ""⟩).nothingToDo = true ∧
      (cli [] runOkAll [] (some ("d", ["c.txt"])) ⟨"", ""⟩).jobs = []) :=
  ⟨by decide, c9_scan_spec.2.2 [] runOkAll "d" ["c.txt"] ⟨"", ""⟩ (by decide)⟩

end Mediaconv
